import Mathlib

/-!
Verification of the EvoMusic evolutionary search engine
(`EvoMusic/evolution/searchers.py`) against its natural-language
specification.

The Python code is shallowly embedded:
* Python strings are lists of characters (`PyStr`); the string helpers
  `count`, `split`, `index`/`find`, `in` and `strip` are reproduced for
  non-empty patterns, which is the only way the source uses them.
* Randomness (`np.random.rand`, `np.random.choice`) and the LLM transport
  (`requests.post`) are modelled as explicit streams inside an `Env`; a
  state `St` counts how many draws of each kind and how many LLM queries
  have been issued, so "never invokes the oracle" is the statement that
  the query counter is unchanged.
* The unbounded `while` retry loops of the source are given explicit fuel
  and return `Option`; `none` means the loop did not complete, `some`
  corresponds to a completed call.
* Float arithmetic is modelled over `ℚ`; Python `int()` applied to the
  non-negative fractions the spec allows is `truncNat` (floor).
* The population container comes from the external `evotorch` library
  (not part of this repository): `SolutionBatch.argsort` is documented to
  return indices from the best solution to the worst, which for the
  declared `objective_sense="max"` is descending fitness (the source
  itself relies on this by printing `indices[0]` as "Population Best");
  `SolutionBatch.evals` is modelled as the flat list of scalar scores.
  Ties in either sort are resolved stably by index.
-/

namespace EvoMusic

/-- Python strings, modelled as lists of characters. -/
abbrev PyStr := List Char

/-- Whether `pat` occurs at the very start of `s`. -/
def hasLead : PyStr → PyStr → Bool
  | [], _ => true
  | _ :: _, [] => false
  | p :: ps, c :: cs => p == c && hasLead ps cs

/-- Python `s.find(sub)` for non-empty `sub`: index of the first occurrence. -/
def pyFind (sub : PyStr) : PyStr → Option Nat
  | [] => none
  | c :: cs => if hasLead sub (c :: cs) then some 0 else (pyFind sub cs).map (· + 1)

/-- Python `sub in s` for non-empty `sub`. -/
def pyContains (sub s : PyStr) : Bool := (pyFind sub s).isSome

/-- Scanner for Python `s.count(sub)`: `skip` characters still belonging to
an already-matched occurrence are passed over, every other position is
tested for a fresh occurrence (so occurrences are counted left to right
without overlap, as `str.count` does). -/
def pyCountAux (sub : PyStr) : Nat → PyStr → Nat
  | _, [] => 0
  | k + 1, _ :: cs => pyCountAux sub k cs
  | 0, c :: cs =>
    if hasLead sub (c :: cs) then pyCountAux sub (sub.length - 1) cs + 1
    else pyCountAux sub 0 cs

/-- Python `s.count(sub)` for non-empty `sub`: number of non-overlapping
occurrences, scanning left to right. -/
def pyCount (sub s : PyStr) : Nat := pyCountAux sub 0 s

/-- Scanner for Python `s.split(sep)`: `skip` characters still belonging to
an already-matched separator are passed over, a fresh separator occurrence
closes the current piece, any other character joins the current piece. -/
def pySplitAux (sep : PyStr) : Nat → PyStr → List PyStr
  | _, [] => [[]]
  | k + 1, _ :: cs => pySplitAux sep k cs
  | 0, c :: cs =>
    if hasLead sep (c :: cs) then [] :: pySplitAux sep (sep.length - 1) cs
    else
      match pySplitAux sep 0 cs with
      | [] => [[c]]
      | r :: rs => (c :: r) :: rs

/-- Python `s.split(sep)` for non-empty `sep`. -/
def pySplit (sep s : PyStr) : List PyStr := pySplitAux sep 0 s

/-- Python whitespace characters removed by `str.strip()`. -/
def pySpace (c : Char) : Bool :=
  c == ' ' || c == '\t' || c == '\n' || c == '\r' || c == '\x0b' || c == '\x0c'

/-- Python `s.strip()`. -/
def pyStrip (s : PyStr) : PyStr :=
  ((s.dropWhile pySpace).reverse.dropWhile pySpace).reverse

/-- The opening delimiter used by the LLM response format. -/
def openTag : PyStr := "<prompt>".data

/-- The closing delimiter used by the LLM response format. -/
def closeTag : PyStr := "</prompt>".data

/-- The tag-extraction loop shared verbatim by `parse_llm_response` and
`generate_prompts`: split the response on `</prompt>`, keep the pieces that
contain `<prompt>`, and for each take everything after the first `<prompt>`
(8 characters) and strip surrounding whitespace. -/
def extractPrompts (response : PyStr) : List PyStr :=
  ((pySplit closeTag response).filter (fun a => pyContains openTag a)).map
    (fun a => pyStrip (a.drop ((pyFind openTag a).getD 0 + 8)))

/-- `LLMPromptGenerator.parse_llm_response`: reject the response outright when
the `<prompt>` and `</prompt>` counts differ, otherwise extract the prompts. -/
def parse_llm_response (response : PyStr) : List PyStr :=
  if pyCount openTag response ≠ pyCount closeTag response then []
  else extractPrompts response

/-- Outcome of one `requests.post` call as `query_llm` observes it: the HTTP
status and the `choices[0].message.content` field of the JSON body (`none`
when the body cannot be decoded that way). A network-level failure is the
`none` transport outcome. -/
structure HttpResponse where
  status : Nat
  content : Option PyStr

/-- The fixed fallback text returned by `query_llm` whenever anything in the
transport goes wrong. -/
def defaultPrompt : PyStr := "A default music prompt.".data

/-- `LLMPromptGenerator.query_llm`: the whole transport is wrapped in
`try/except`, so a failed request (`none`), an error status
(`raise_for_status`, status ≥ 400) or an undecodable body all yield the fixed
fallback string; a successful response is returned stripped. -/
def query_llm (transport : Option HttpResponse) : PyStr :=
  match transport with
  | none => defaultPrompt
  | some r =>
    if 400 ≤ r.status then defaultPrompt
    else
      match r.content with
      | none => defaultPrompt
      | some c => pyStrip c

/-- Counters threading the stateful external world through a run: `q` LLM
queries issued so far, `pk` random subset draws issued (`np.random.choice`
with `replace=False`), `rd` uniform draws issued (`np.random.rand`). -/
structure St where
  q : Nat
  pk : Nat
  rd : Nat
deriving DecidableEq, Repr

/-- The external world: the transport outcome of the n-th LLM query, the
index subset produced by the n-th `np.random.choice(len, k, replace=False)`
draw (also used for the fitness-weighted variant, whose softmax weights only
shape the distribution of the draw), the n-th `np.random.rand()` value, and
the FitnessSource score of a text solution. -/
structure Env where
  transport : Nat → Option HttpResponse
  pick : Nat → Nat → Nat → List Nat
  rand : Nat → ℚ
  fitness : PyStr → ℚ

/-- The guarantees the real random sources provide: a feasible
`np.random.choice(len, k, replace=False)` returns `k` distinct indices below
`len`, and `np.random.rand()` lies in `[0, 1)`. -/
def EnvValid (env : Env) : Prop :=
  (∀ e len k, k ≤ len →
    (env.pick e len k).length = k ∧ (env.pick e len k).Nodup ∧
      ∀ i ∈ env.pick e len k, i < len) ∧
  (∀ i, 0 ≤ env.rand i ∧ env.rand i < 1)

/-- `np.random.choice(xs, k, replace=False)`: raises when `k` exceeds the
population (`none`), otherwise returns the elements at the drawn index
subset `sel xs.length k`. -/
def npChoice (sel : Nat → Nat → List Nat) (xs : List PyStr) (k : Nat) :
    Option (List PyStr) :=
  if xs.length < k then none
  else some ((sel xs.length k).map (fun i => xs.getD i []))

/-- The `while` loop of `LLMPromptGenerator.generate_prompts`: keep querying
until `num` prompts are collected; a response with unbalanced tag counts is
skipped, otherwise its extracted prompts are appended one by one, stopping as
soon as the quota is reached. -/
def genLoop (env : Env) (num : Nat) : Nat → List PyStr → St → Option (List PyStr × St)
  | 0, acc, st => if num ≤ acc.length then some (acc, st) else none
  | fuel + 1, acc, st =>
    if num ≤ acc.length then some (acc, st)
    else
      let answers := query_llm (env.transport st.q)
      if pyCount openTag answers ≠ pyCount closeTag answers then
        genLoop env num fuel acc ⟨st.q + 1, st.pk, st.rd⟩
      else
        genLoop env num fuel (acc ++ (extractPrompts answers).take (num - acc.length))
          ⟨st.q + 1, st.pk, st.rd⟩

/-- `LLMPromptGenerator.generate_prompts`. -/
def generate_prompts (env : Env) (num : Nat) (fuel : Nat) (st : St) :
    Option (List PyStr × St) :=
  genLoop env num fuel [] st

/-- The `searchConf` knobs used by `PromptSearcher` (the configuration class
itself lives in `EvoMusic/configuration.py`, which is not among the sources;
the spec constrains both fractions to `[0, 1]`). -/
structure SearchConf where
  population_size : Nat
  elites : ℚ
  novel_prompts : ℚ
  sample : Bool
  temperature : ℚ
  tournament_size : Nat

/-- Python `int()` on the non-negative rationals arising here: truncation,
which on non-negative values is the floor. -/
def truncNat (q : ℚ) : Nat := ⌊q⌋.toNat

/-- Insertion step for an argsort over positions of `fit`: `i` goes before
the first `j` whose key does not satisfy `before key_j key_i`. -/
def insertIdxBy (before : ℚ → ℚ → Bool) (fit : List ℚ) (i : Nat) :
    List Nat → List Nat
  | [] => [i]
  | j :: js =>
    if before (fit.getD j 0) (fit.getD i 0) then j :: insertIdxBy before fit i js
    else i :: j :: js

/-- Stable argsort of the positions of `fit` with respect to `before`. -/
def argsortBy (before : ℚ → ℚ → Bool) (fit : List ℚ) : List Nat :=
  (List.range fit.length).foldr (insertIdxBy before fit) []

/-- `np.argsort`: indices in ascending order of fitness (stable on ties). -/
def argsortAsc (fit : List ℚ) : List Nat := argsortBy (fun a b => a < b) fit

/-- The external `evotorch` `SolutionBatch.argsort()`: indices from the best
solution to the worst, i.e. descending fitness for the declared maximization
objective (stable on ties). -/
def argsortDesc (fit : List ℚ) : List Nat := argsortBy (fun a b => b < a) fit

/-- A scored population: the solution values together with the parallel list
of fitness evaluations (`SolutionBatch.values` / `SolutionBatch.evals`). -/
structure Pop where
  values : List PyStr
  evals : List ℚ
deriving DecidableEq, Repr

/-- `PromptSearcher.sample_population`: nothing to select when `n = 0`;
with `sample` set, a fitness-weighted draw of `n` individuals without
replacement (softmax over fitness/temperature shapes the weights, the draw
itself is the environment's); otherwise the first `n` positions of the
ascending `np.argsort` of the fitness values. -/
def sample_population (env : Env) (pop : List PyStr) (fit : List ℚ) (n : Nat)
    (sample : Bool) (st : St) : Option (List PyStr × St) :=
  if n = 0 then some ([], st)
  else if sample then
    (npChoice (env.pick st.pk) pop n).map (fun out => (out, ⟨st.q, st.pk + 1, st.rd⟩))
  else
    some (((argsortAsc fit).take n).map (fun i => pop.getD i []), st)

/-- `PromptSearcher.get_elites`: an empty group when the elitism fraction is
zero; otherwise `int(elites * population_size)` individuals, either sampled
by fitness or taken from the front of the population container's
best-to-worst `argsort`. -/
def get_elites (cfg : SearchConf) (env : Env) (pop : Pop) (st : St) :
    Option (List PyStr × St) :=
  if cfg.elites = 0 then some ([], st)
  else
    let num_elites := truncNat (cfg.elites * cfg.population_size)
    if cfg.sample then
      sample_population env pop.values pop.evals num_elites cfg.sample st
    else
      some (((argsortDesc pop.evals).take num_elites).map (fun i => pop.values.getD i []), st)

/-- `PromptSearcher.get_novel_prompts`: an empty group when the novelty
fraction is zero, otherwise `int(population_size * novel_prompts)` freshly
generated prompts. -/
def get_novel_prompts (cfg : SearchConf) (env : Env) (fuel : Nat) (st : St) :
    Option (List PyStr × St) :=
  if cfg.novel_prompts = 0 then some ([], st)
  else generate_prompts env (truncNat ((cfg.population_size : ℚ) * cfg.novel_prompts)) fuel st

/-- `PromptSearcher.tournament_selection`: draw `tournament_size` distinct
indices (infeasible, hence a raised error, when the population is smaller),
restrict population and fitness to them, and select `n` individuals from the
subset via `sample_population`. -/
def tournament_selection (cfg : SearchConf) (env : Env) (pop : List PyStr)
    (fit : List ℚ) (n : Nat) (st : St) : Option (List PyStr × St) :=
  if pop.length < cfg.tournament_size then none
  else
    let idx := env.pick st.pk pop.length cfg.tournament_size
    let st1 : St := ⟨st.q, st.pk + 1, st.rd⟩
    sample_population env (idx.map (fun i => pop.getD i []))
      (idx.map (fun i => fit.getD i 0)) n cfg.sample st1

/-- Configuration of one `LLMEvolutionOperator` (`LLMPromptOperator` in
`EvoMusic/configuration.py`): input arity, output arity and the trigger
probability of the Bernoulli gate. The oracle instruction template only
shapes the text of the query, which the transport stream abstracts. -/
structure OpConf where
  input : Nat
  output : Nat
  probability : ℚ
deriving DecidableEq, Repr

/-- The accumulation loop shared verbatim by `LLMEvolutionOperator.apply` and
`PromptSearcher.full_LLM_step`: query, parse with `parse_llm_response`, and
append the parsed prompts truncated to the remaining quota, until `target`
prompts are collected. -/
def accumLoop (env : Env) (target : Nat) : Nat → List PyStr → St → Option (List PyStr × St)
  | 0, acc, st => if target ≤ acc.length then some (acc, st) else none
  | fuel + 1, acc, st =>
    if target ≤ acc.length then some (acc, st)
    else
      accumLoop env target fuel
        (acc ++ (parse_llm_response (query_llm (env.transport st.q))).take (target - acc.length))
        ⟨st.q + 1, st.pk, st.rd⟩

/-- `LLMEvolutionOperator.apply`: assert the input group has the declared
arity, draw the Bernoulli gate (`np.random.rand() < probability`); when the
gate does not fire, return `np.random.choice(inputs, output, replace=False)`;
when it fires, accumulate parsed oracle prompts until `output` are
collected. -/
def applyOp (cfg : OpConf) (env : Env) (fuel : Nat) (inputs : List PyStr)
    (st : St) : Option (List PyStr × St) :=
  if inputs.length ≠ cfg.input then none
  else
    let r := env.rand st.rd
    let st1 : St := ⟨st.q, st.pk, st.rd + 1⟩
    if r < cfg.probability then
      accumLoop env cfg.output fuel [] st1
    else
      (npChoice (env.pick st1.pk) inputs cfg.output).map
        (fun out => (out, ⟨st1.q, st1.pk + 1, st1.rd⟩))

/-- The operator pipeline of `LLM_evolve_step`: each operator consumes the
previous operator's output. -/
def applyOps (env : Env) (fuel : Nat) : List OpConf → List PyStr → St →
    Option (List PyStr × St)
  | [], xs, st => some (xs, st)
  | op :: ops, xs, st =>
    match applyOp op env fuel xs st with
    | none => none
    | some (ys, st') => applyOps env fuel ops ys st'

/-- The external `evotorch` `SolutionBatch.set_values` on the fixed-size
batch created by `generate_batch(population_size)`: the container holds
exactly `population_size` solutions and a write of any other number of
values raises (the batch cannot grow), so the wholesale replacement
completes only when exactly `population_size` values are written. -/
def set_values (population_size : Nat) (vs : List PyStr) : Option (List PyStr) :=
  if vs.length = population_size then some vs else none

/-- `PromptSearcher.full_LLM_step`: assemble elites and novel prompts, then
repeatedly query the LLM with the ranking report (text that does not alter
the modelled state) and accumulate parsed prompts, truncated to the remaining
quota, until the population is full; finally write the assembly back into
the fixed-size batch with `set_values`. -/
def full_LLM_step (cfg : SearchConf) (env : Env) (pop : Pop) (fuel : Nat)
    (st : St) : Option (List PyStr × St) :=
  match get_elites cfg env pop st with
  | none => none
  | some (elites, st1) =>
    match get_novel_prompts cfg env fuel st1 with
    | none => none
    | some (novel, st2) =>
      match accumLoop env cfg.population_size fuel (elites ++ novel) st2 with
      | none => none
      | some (new_prompts, st3) =>
        match set_values cfg.population_size new_prompts with
        | none => none
        | some vs => some (vs, st3)

/-- The `while` loop of `LLM_evolve_step`: while short of quota, draw one
tournament group sized to the first operator's input arity from the old
population, run it through the whole pipeline, and append the result
truncated to the remaining quota. -/
def evolveLoop (cfg : SearchConf) (ops : List OpConf) (env : Env) (oldPop : Pop) :
    Nat → List PyStr → St → Option (List PyStr × St)
  | 0, acc, st => if cfg.population_size ≤ acc.length then some (acc, st) else none
  | fuel + 1, acc, st =>
    if cfg.population_size ≤ acc.length then some (acc, st)
    else
      match tournament_selection cfg env oldPop.values oldPop.evals
          ((ops.headD ⟨0, 0, 0⟩).input) st with
      | none => none
      | some (sel, st1) =>
        match applyOps env fuel ops sel st1 with
        | none => none
        | some (out, st2) =>
          evolveLoop cfg ops env oldPop fuel
            (acc ++ out.take (cfg.population_size - acc.length)) st2

/-- `PromptSearcher.LLM_evolve_step`: elites and novel prompts first, then
the tournament/pipeline loop until the population is full; finally write the
assembly back into the fixed-size batch with `set_values`. -/
def LLM_evolve_step (cfg : SearchConf) (ops : List OpConf) (env : Env)
    (pop : Pop) (fuel : Nat) (st : St) : Option (List PyStr × St) :=
  match get_elites cfg env pop st with
  | none => none
  | some (elites, st1) =>
    match get_novel_prompts cfg env fuel st1 with
    | none => none
    | some (novel, st2) =>
      match evolveLoop cfg ops env pop fuel (elites ++ novel) st2 with
      | none => none
      | some (new_population, st3) =>
        match set_values cfg.population_size new_population with
        | none => none
        | some vs => some (vs, st3)

/-- The stepping strategies of the text-mode engine, dispatched in the source
by comparing `config.mode` against the strings `"full LLM"` and
`"LLM evolve"`. -/
inductive Mode where
  | fullLLM : Mode
  | llmEvolve : Mode
deriving DecidableEq, Repr

/-- `Problem.evaluate` on a freshly replaced population: every solution gets
the FitnessSource score assigned as its evaluation. -/
def evaluate_population (env : Env) (vs : List PyStr) : Pop :=
  ⟨vs, vs.map env.fitness⟩

/-- A post-initialization `PromptSearcher._step`: run the configured stepping
strategy, replace the population wholesale and evaluate it. -/
def step (mode : Mode) (cfg : SearchConf) (ops : List OpConf) (env : Env)
    (pop : Pop) (fuel : Nat) (st : St) : Option (Pop × St) :=
  match mode with
  | .fullLLM =>
    (full_LLM_step cfg env pop fuel st).map
      (fun out => (evaluate_population env out.1, out.2))
  | .llmEvolve =>
    (LLM_evolve_step cfg ops env pop fuel st).map
      (fun out => (evaluate_population env out.1, out.2))

/-- The progress/ETA bookkeeping of `MusicOptimizationProblem`: the running
exponential moving average of one evaluation's duration, the accumulated
time of the current population pass, the number of evaluations in the
current pass and overall. -/
structure EvalState where
  sample_time : ℚ
  current_time : ℚ
  generated : Nat
  total_generated : Nat
deriving DecidableEq, Repr

/-- `MusicOptimizationProblem._evaluate`: compute the fitness of the
solution, then update the bookkeeping with the measured duration `dur`: the
counter is incremented, the EMA is either initialized (when still zero) or
updated as `0.9 old + 0.1 new`, the pass time grows by `dur`, and once the
counter reaches `population_size` the counter and the pass time are reset to
zero. The score returned for the solution is the fitness alone. -/
def eval_step {α : Type} (N : Nat) (fitF : α → ℚ) (dur : ℚ) (st : EvalState)
    (sol : α) : EvalState × ℚ :=
  if N ≤ st.generated + 1 then
    (⟨if st.sample_time = 0 then dur else st.sample_time * (9 / 10) + dur * (1 / 10),
      0, 0, st.total_generated + N⟩, fitF sol)
  else
    (⟨if st.sample_time = 0 then dur else st.sample_time * (9 / 10) + dur * (1 / 10),
      st.current_time + dur, st.generated + 1, st.total_generated⟩, fitF sol)

/-- Modelled from the spec: `MusicGenerator.preprocess_text` (in
`EvoMusic/music_generation/generators.py`, which is not among the sources)
converts text prompts to per-prompt embedding matrices whose rows all have
the generator's fixed embedding width; a conversion may produce any number
of rows, and only matrices with exactly `max_seq_len` rows are valid. -/
structure TextEncoder where
  emb_width : Nat
  encode : PyStr → List (List ℚ)
  encode_width : ∀ p row, row ∈ encode p → row.length = emb_width

/-- The `while` loop of `MusicOptimizationProblem._fill` in vector mode:
generate a batch of `population` diverse prompts, convert them, keep only
the matrices with exactly `seqLen` rows, and append them truncated to the
remaining quota, until `population` slots are filled. -/
def fillLoop (enc : TextEncoder) (seqLen : Nat) (env : Env) (population : Nat) :
    Nat → List (List (List ℚ)) → St → Option (List (List (List ℚ)) × St)
  | 0, acc, st => if population ≤ acc.length then some (acc, st) else none
  | fuel + 1, acc, st =>
    if population ≤ acc.length then some (acc, st)
    else
      match generate_prompts env population fuel st with
      | none => none
      | some (prompts, st') =>
        fillLoop enc seqLen env population fuel
          (acc ++ ((prompts.map enc.encode).filter
            (fun m => m.length == seqLen)).take (population - acc.length)) st'

/-- `MusicOptimizationProblem._fill` in vector (continuous) mode: fill
`population` slots with admitted matrices, then flatten each row-major
(`torch.stack` followed by `view(population, -1)`). -/
def fill (enc : TextEncoder) (seqLen : Nat) (env : Env) (population : Nat)
    (fuel : Nat) (st : St) : Option (List (List ℚ) × St) :=
  (fillLoop enc seqLen env population fuel [] st).map
    (fun out => (out.1.map (fun m => m.flatten), out.2))

/-- Initial counter state of a run. -/
def st0 : St := ⟨0, 0, 0⟩

/-- A concrete well-behaved environment: the transport always delivers one
well-tagged prompt, subset draws return the first `k` indices, uniform draws
return `0`, fitness is constantly `0`. -/
def envW : Env where
  transport := fun _ => some ⟨200, some "<prompt>X</prompt>".data⟩
  pick := fun _ _ k => List.range k
  rand := fun _ => 0
  fitness := fun _ => 0

/-- A benign configuration: population 2, elitism 1/2, no novelty. -/
def cfgC1W : SearchConf := ⟨2, 1 / 2, 0, false, 1, 2⟩

/-- A scored two-member population with distinct fitness values. -/
def popW2 : Pop := ⟨["a".data, "b".data], [0, 1]⟩

/-- An operator stage with arities 2 → 1 and a never-firing gate. -/
def opW : OpConf := ⟨2, 1, 0⟩

/-- An operator stage demanding more outputs than inputs, gate never
firing. -/
def opBad : OpConf := ⟨1, 2, 0⟩

/-- A concrete encoder of embedding width 2 always producing two rows. -/
def encW : TextEncoder where
  emb_width := 2
  encode := fun _ => [[0, 0], [0, 0]]
  encode_width := by
    intro p row h
    simp only [List.mem_cons, List.not_mem_nil, or_false] at h
    rcases h with h | h <;> simp [h]

theorem accumLoop_length (env : Env) (t : Nat) :
    ∀ fuel acc st out st2, acc.length ≤ t →
      accumLoop env t fuel acc st = some (out, st2) → out.length = t := by
  intro fuel
  induction fuel with
  | zero =>
    intro acc st out st2 hle h
    rw [accumLoop] at h
    split at h
    · cases h; omega
    · simp at h
  | succ n ih =>
    intro acc st out st2 hle h
    rw [accumLoop] at h
    split at h
    · cases h; omega
    · refine ih _ _ _ _ ?_ h
      simp only [List.length_append, List.length_take]
      omega

theorem genLoop_eq_accumLoop (env : Env) (num : Nat) :
    ∀ fuel acc st, genLoop env num fuel acc st = accumLoop env num fuel acc st := by
  intro fuel
  induction fuel with
  | zero => intro acc st; rw [genLoop, accumLoop]
  | succ n ih =>
    intro acc st
    rw [genLoop, accumLoop]
    by_cases hle : num ≤ acc.length
    · simp [hle]
    · simp only [if_neg hle]
      by_cases hc : pyCount openTag (query_llm (env.transport st.q)) ≠
          pyCount closeTag (query_llm (env.transport st.q))
      · rw [if_pos hc, ih]
        have : parse_llm_response (query_llm (env.transport st.q)) = [] := by
          rw [parse_llm_response, if_pos hc]
        rw [this]
        simp
      · rw [if_neg hc, ih]
        have : parse_llm_response (query_llm (env.transport st.q)) =
            extractPrompts (query_llm (env.transport st.q)) := by
          rw [parse_llm_response, if_neg hc]
        rw [this]

theorem insertIdxBy_length (b : ℚ → ℚ → Bool) (fit : List ℚ) (i : Nat) :
    ∀ l : List Nat, (insertIdxBy b fit i l).length = l.length + 1 := by
  intro l
  induction l with
  | nil => rfl
  | cons j js ih =>
    rw [insertIdxBy]
    split
    · simp only [List.length_cons, ih]
    · simp

theorem argsortBy_length (b : ℚ → ℚ → Bool) (fit : List ℚ) :
    (argsortBy b fit).length = fit.length := by
  rw [argsortBy]
  have key : ∀ is : List Nat, (is.foldr (insertIdxBy b fit) []).length = is.length := by
    intro is
    induction is with
    | nil => rfl
    | cons i is ih => rw [List.foldr_cons, insertIdxBy_length, ih, List.length_cons]
  rw [key, List.length_range]

theorem truncNat_mul_le {e : ℚ} (N : Nat) (h1 : e ≤ 1) : truncNat (e * N) ≤ N := by
  rw [truncNat]
  have h2 : e * N ≤ (N : ℚ) := by
    calc e * N ≤ 1 * N := by
          apply mul_le_mul_of_nonneg_right h1
          positivity
    _ = (N : ℚ) := one_mul _
  have h3 : ⌊e * (N : ℚ)⌋ ≤ ⌊(N : ℚ)⌋ := Int.floor_le_floor h2
  rw [Int.floor_natCast] at h3
  omega

theorem envW_valid : EnvValid envW := by
  constructor
  · intro e len k hk
    refine ⟨List.length_range k, List.nodup_range k, ?_⟩
    intro i hi
    have := List.mem_range.mp hi
    omega
  · intro i
    constructor
    · exact le_refl 0
    · norm_num [envW]

theorem get_elites_spec (cfg : SearchConf) (env : Env) (pop : Pop) (st : St)
    (henv : EnvValid env) (he1 : cfg.elites ≤ 1)
    (hv : pop.values.length = cfg.population_size)
    (hep : pop.evals.length = cfg.population_size) :
    ∃ l st2, get_elites cfg env pop st = some (l, st2) ∧
      l.length = truncNat (cfg.elites * cfg.population_size) ∧ st2.q = st.q := by
  rw [get_elites]
  by_cases he : cfg.elites = 0
  · rw [if_pos he]
    refine ⟨[], st, rfl, ?_, rfl⟩
    rw [he]
    simp [truncNat]
  · rw [if_neg he]
    have hle : truncNat (cfg.elites * cfg.population_size) ≤ cfg.population_size :=
      truncNat_mul_le _ he1
    by_cases hs : cfg.sample
    · rw [if_pos hs, sample_population]
      by_cases hn : truncNat (cfg.elites * cfg.population_size) = 0
      · rw [if_pos hn]
        exact ⟨[], st, rfl, hn.symm, rfl⟩
      · rw [if_neg hn, if_pos hs, npChoice,
          if_neg (by omega : ¬ pop.values.length < truncNat (cfg.elites * cfg.population_size))]
        refine ⟨_, _, rfl, ?_, rfl⟩
        rw [List.length_map]
        exact ((henv.1 st.pk pop.values.length _ (by omega)).1)
    · rw [if_neg hs]
      refine ⟨_, st, rfl, ?_, rfl⟩
      rw [List.length_map, List.length_take, argsortDesc, argsortBy_length, hep]
      omega

theorem get_novel_spec (cfg : SearchConf) (env : Env) (fuel : Nat) (st : St) :
    ∀ l st2, get_novel_prompts cfg env fuel st = some (l, st2) →
      l.length = truncNat ((cfg.population_size : ℚ) * cfg.novel_prompts) := by
  intro l st2 h
  rw [get_novel_prompts] at h
  by_cases hv : cfg.novel_prompts = 0
  · rw [if_pos hv] at h
    cases h
    rw [hv]
    simp [truncNat]
  · rw [if_neg hv, generate_prompts, genLoop_eq_accumLoop] at h
    exact accumLoop_length env _ fuel [] st l st2 (by simp) h

theorem get_elites_zero (cfg : SearchConf) (env : Env) (pop : Pop) (st : St)
    (h : truncNat (cfg.elites * cfg.population_size) = 0) :
    get_elites cfg env pop st = some ([], st) := by
  rw [get_elites]
  by_cases he : cfg.elites = 0
  · rw [if_pos he]
  · rw [if_neg he]
    by_cases hs : cfg.sample
    · rw [if_pos hs, sample_population, if_pos h]
    · rw [if_neg hs]
      rw [h]
      simp

theorem get_novel_zero (cfg : SearchConf) (env : Env) (fuel : Nat) (st : St)
    (h : truncNat ((cfg.population_size : ℚ) * cfg.novel_prompts) = 0) :
    get_novel_prompts cfg env fuel st = some ([], st) := by
  rw [get_novel_prompts]
  by_cases hv : cfg.novel_prompts = 0
  · rw [if_pos hv]
  · rw [if_neg hv, generate_prompts, h]
    cases fuel <;> rw [genLoop] <;> simp

theorem evolveLoop_length (cfg : SearchConf) (ops : List OpConf) (env : Env)
    (oldPop : Pop) :
    ∀ fuel acc st out st2, acc.length ≤ cfg.population_size →
      evolveLoop cfg ops env oldPop fuel acc st = some (out, st2) →
      out.length = cfg.population_size := by
  intro fuel
  induction fuel with
  | zero =>
    intro acc st out st2 hle h
    rw [evolveLoop] at h
    split at h
    · cases h; omega
    · simp at h
  | succ n ih =>
    intro acc st out st2 hle h
    rw [evolveLoop] at h
    split at h
    · cases h; omega
    · split at h
      · simp at h
      · split at h
        · simp at h
        · refine ih _ _ _ _ ?_ h
          simp only [List.length_append, List.length_take]
          omega

theorem flatten_length_of_widths {w : Nat} :
    ∀ m : List (List ℚ), (∀ r ∈ m, r.length = w) → m.flatten.length = m.length * w := by
  intro m
  induction m with
  | nil => intro _; simp
  | cons r rs ih =>
    intro h
    rw [List.flatten_cons, List.length_append,
      ih (fun x hx => h x (List.mem_cons_of_mem _ hx)),
      h r (List.mem_cons_self r rs), List.length_cons]
    ring

theorem fillLoop_invariant (enc : TextEncoder) (seqLen : Nat) (env : Env)
    (population : Nat) :
    ∀ fuel acc st out st2,
      acc.length ≤ population →
      (∀ m ∈ acc, m.length = seqLen ∧ ∀ r ∈ m, r.length = enc.emb_width) →
      fillLoop enc seqLen env population fuel acc st = some (out, st2) →
      out.length = population ∧
        ∀ m ∈ out, m.length = seqLen ∧ ∀ r ∈ m, r.length = enc.emb_width := by
  intro fuel
  induction fuel with
  | zero =>
    intro acc st out st2 hle hmem h
    rw [fillLoop] at h
    split at h
    · cases h
      exact ⟨by omega, hmem⟩
    · simp at h
  | succ n ih =>
    intro acc st out st2 hle hmem h
    rw [fillLoop] at h
    split at h
    · cases h
      exact ⟨by omega, hmem⟩
    · split at h
      · simp at h
      · refine ih _ _ _ _ ?_ ?_ h
        · simp only [List.length_append, List.length_take]
          omega
        · intro m hm
          rcases List.mem_append.mp hm with hm | hm
          · exact hmem m hm
          · have hm2 := List.mem_filter.mp (List.mem_of_mem_take hm)
            rcases List.mem_map.mp hm2.1 with ⟨p, _, rfl⟩
            refine ⟨by simpa using hm2.2, ?_⟩
            intro r hr
            exact enc.encode_width p r hr

/-- Claim C6: in vector mode, a completed initial fill admits exactly
`population` solutions, each a flat vector of length exactly
`max_seq_len * embedding_width`; candidates whose conversion has the wrong
number of rows are filtered out and replaced by continued resampling, so no
wrong-length solution is ever admitted. -/
theorem fill_vector_lengths (enc : TextEncoder) (seqLen : Nat) (env : Env)
    (population fuel : Nat) (st : St) :
    ∀ sols st2, fill enc seqLen env population fuel st = some (sols, st2) →
      sols.length = population ∧ ∀ v ∈ sols, v.length = seqLen * enc.emb_width := by
  intro sols st2 h
  rw [fill] at h
  cases hf : fillLoop enc seqLen env population fuel [] st with
  | none =>
    rw [hf] at h
    simp at h
  | some outst =>
    obtain ⟨ms, st3⟩ := outst
    rw [hf] at h
    have h' : (ms.map (fun m => m.flatten), st3) = (sols, st2) := by
      simpa [Option.map] using h
    injection h' with h1 h2
    subst h1
    subst h2
    have inv := fillLoop_invariant enc seqLen env population fuel [] st ms st3
      (by simp) (by simp) hf
    refine ⟨by rw [List.length_map, inv.1], ?_⟩
    intro v hv
    rcases List.mem_map.mp hv with ⟨m, hm, rfl⟩
    rw [flatten_length_of_widths m (inv.2 m hm).2, (inv.2 m hm).1]

/-- Witness for C6 at a concrete encoder, environment and quota. -/
theorem fill_vector_lengths_witness :
    ([[0, 0, 0, 0]] : List (List ℚ)).length = 1 ∧
      ∀ v ∈ ([[0, 0, 0, 0]] : List (List ℚ)), v.length = 2 * encW.emb_width :=
  fill_vector_lengths encW 2 envW 1 2 st0 [[0, 0, 0, 0]] ⟨1, 0, 0⟩
    (by with_unfolding_all decide)

/-- Claim C4: a response whose `<prompt>` and `</prompt>` counts differ parses
to the empty list; `"<prompt>A</prompt><prompt>B</prompt>"` parses to
`["A", "B"]` and the unbalanced `"<prompt>A</prompt><prompt>B"` parses to the
empty list. -/
theorem parse_unbalanced_empty :
    (∀ r : PyStr, pyCount openTag r ≠ pyCount closeTag r → parse_llm_response r = []) ∧
    parse_llm_response "<prompt>A</prompt><prompt>B</prompt>".data = ["A".data, "B".data] ∧
    parse_llm_response "<prompt>A</prompt><prompt>B".data = [] := by
  refine ⟨?_, by decide, by decide⟩
  intro r h
  rw [parse_llm_response, if_pos h]

/-- Witness for C4: the inner implication applied at a concrete unbalanced
response. -/
theorem parse_unbalanced_empty_witness :
    parse_llm_response "<prompt>A".data = [] :=
  parse_unbalanced_empty.1 "<prompt>A".data (by decide)

/-- Claim C10: acceptance compares only the two tag counts, not ordering, so
`"</prompt><prompt>A"` (closing tag first, counts equal) is accepted and
yields `["A"]`; extracted prompts are stripped of surrounding whitespace, as
`"<prompt>  A </prompt>"` also yielding `["A"]` shows. -/
theorem parse_counts_only_and_strips :
    parse_llm_response "</prompt><prompt>A".data = ["A".data] ∧
    parse_llm_response "<prompt>  A </prompt>".data = ["A".data] := by decide

/-- Claim C7: `query_llm` is total (modelled by returning a plain string) and
every transport failure — network error, HTTP error status, undecodable
body — yields the fixed fallback string; a successful response is returned
stripped. -/
theorem query_llm_never_raises :
    query_llm none = defaultPrompt ∧
    (∀ r : HttpResponse, 400 ≤ r.status → query_llm (some r) = defaultPrompt) ∧
    (∀ r : HttpResponse, r.content = none → query_llm (some r) = defaultPrompt) ∧
    (∀ t : Option HttpResponse, query_llm t = defaultPrompt ∨
      ∃ c : PyStr, query_llm t = pyStrip c) := by
  refine ⟨rfl, ?_, ?_, ?_⟩
  · intro r h
    rw [query_llm, if_pos h]
  · intro r h
    rw [query_llm, h]
    split <;> rfl
  · intro t
    match t with
    | none => exact Or.inl rfl
    | some r =>
      rw [query_llm]
      by_cases h : 400 ≤ r.status
      · rw [if_pos h]
        exact Or.inl rfl
      · rw [if_neg h]
        match hc : r.content with
        | none => exact Or.inl rfl
        | some c => exact Or.inr ⟨c, rfl⟩

/-- Witness for C7: a concrete error-status response yields the fallback. -/
theorem query_llm_never_raises_witness :
    query_llm (some ⟨500, some "x".data⟩) = defaultPrompt :=
  query_llm_never_raises.2.1 ⟨500, some "x".data⟩ (by norm_num)

/-- Claim C9: when the Bernoulli gate does not fire, an operator stage whose
output arity exceeds its input arity fails (`np.random.choice` without
replacement cannot draw more items than it is given) instead of returning a
group. -/
theorem operator_overdraw_fails (cfg : OpConf) (env : Env) (fuel : Nat)
    (inputs : List PyStr) (st : St) (hin : inputs.length = cfg.input)
    (hio : cfg.input < cfg.output)
    (hgate : ¬ env.rand st.rd < cfg.probability) :
    applyOp cfg env fuel inputs st = none := by
  rw [applyOp, if_neg (by omega : ¬ inputs.length ≠ cfg.input), if_neg hgate,
    npChoice, if_pos (by omega : inputs.length < cfg.output)]
  rfl

/-- Witness for C9 at a concrete overdrawing stage. -/
theorem operator_overdraw_fails_witness :
    applyOp opBad envW 9 ["a".data] st0 = none :=
  operator_overdraw_fails opBad envW 9 ["a".data] st0 (by decide) (by decide)
    (by with_unfolding_all decide)

/-- Claim C5 (amended): a stage with trigger probability zero whose output
arity does not exceed its input arity returns the elements of the input
group at the drawn distinct index subset — exactly `output` items, drawn
without replacement — and never invokes the oracle (the query counter and
the transport are untouched). -/
theorem operator_passthrough_subsample (cfg : OpConf) (env : Env) (fuel : Nat)
    (inputs : List PyStr) (st : St) (henv : EnvValid env)
    (hp : cfg.probability = 0) (hin : inputs.length = cfg.input)
    (hout : cfg.output ≤ cfg.input) :
    ∃ idxs : List Nat, idxs.length = cfg.output ∧ idxs.Nodup ∧
      (∀ i ∈ idxs, i < inputs.length) ∧
      applyOp cfg env fuel inputs st =
        some (idxs.map (fun i => inputs.getD i []), ⟨st.q, st.pk + 1, st.rd + 1⟩) := by
  have hgate : ¬ env.rand st.rd < cfg.probability := by
    rw [hp]
    exact not_lt.mpr (henv.2 st.rd).1
  have hpick := henv.1 st.pk inputs.length cfg.output (by omega)
  refine ⟨env.pick st.pk inputs.length cfg.output, hpick.1, hpick.2.1, hpick.2.2, ?_⟩
  rw [applyOp, if_neg (by omega : ¬ inputs.length ≠ cfg.input), if_neg hgate,
    npChoice, if_neg (by omega : ¬ inputs.length < cfg.output)]
  rfl

/-- Witness for C5 (amended) at a concrete 2 → 1 stage. -/
theorem operator_passthrough_subsample_witness :
    ∃ idxs : List Nat, idxs.length = opW.output ∧ idxs.Nodup ∧
      (∀ i ∈ idxs, i < (["a".data, "b".data] : List PyStr).length) ∧
      applyOp opW envW 9 ["a".data, "b".data] st0 =
        some (idxs.map (fun i => (["a".data, "b".data] : List PyStr).getD i []),
          ⟨st0.q, st0.pk + 1, st0.rd + 1⟩) :=
  operator_passthrough_subsample opW envW 9 ["a".data, "b".data] st0 envW_valid rfl
    (by decide) (by decide)

/-- Counterexample to C5 as stated: with trigger probability zero but output
arity 2 on an input group of the declared size 1, the stage fails instead of
returning a subsample. -/
theorem operator_passthrough_overdraw :
    applyOp opBad envW 9 ["a".data] st0 = none ∧
    opBad.probability = 0 ∧
    (["a".data] : List PyStr).length = opBad.input := by
  refine ⟨by with_unfolding_all decide, rfl, by decide⟩

/-- Claim C8 (amended): each evaluation returns exactly the fitness of the
solution, untouched by the bookkeeping; the latency estimate is updated as
the 0.9/0.1 exponential moving average whenever it is already nonzero, and
is initialized to the measured duration itself on the first measurement
(when the stored estimate is zero) — not by the EMA formula; the counter and
pass time grow monotonically within a pass and reset to zero exactly when
the counter reaches `population_size`. -/
theorem eval_bookkeeping {α : Type} (N : Nat) (fitF : α → ℚ) (dur : ℚ)
    (st : EvalState) (sol : α) :
    ((eval_step N fitF dur st sol).2 = fitF sol) ∧
    (st.sample_time ≠ 0 → (eval_step N fitF dur st sol).1.sample_time =
      st.sample_time * (9 / 10) + dur * (1 / 10)) ∧
    (st.sample_time = 0 → (eval_step N fitF dur st sol).1.sample_time = dur) ∧
    (st.generated + 1 < N →
      (eval_step N fitF dur st sol).1.current_time = st.current_time + dur ∧
      (eval_step N fitF dur st sol).1.generated = st.generated + 1 ∧
      (0 ≤ dur → st.current_time ≤ (eval_step N fitF dur st sol).1.current_time)) ∧
    (N ≤ st.generated + 1 →
      (eval_step N fitF dur st sol).1.generated = 0 ∧
      (eval_step N fitF dur st sol).1.current_time = 0 ∧
      (eval_step N fitF dur st sol).1.total_generated = st.total_generated + N) := by
  refine ⟨?_, ?_, ?_, ?_, ?_⟩
  · rw [eval_step]
    split <;> rfl
  · intro h
    rw [eval_step]
    split <;> simp [if_neg h]
  · intro h
    rw [eval_step]
    split <;> simp [if_pos h]
  · intro h
    rw [eval_step, if_neg (by omega : ¬ N ≤ st.generated + 1)]
    refine ⟨rfl, rfl, ?_⟩
    intro hd
    show st.current_time ≤ st.current_time + dur
    linarith
  · intro h
    rw [eval_step, if_pos h]
    exact ⟨rfl, rfl, rfl⟩

/-- Witness for C8 (amended): the EMA update on a nonzero estimate at a
concrete state and duration. -/
theorem eval_bookkeeping_witness :
    (eval_step 5 (fun _ : Unit => 0) 2 ⟨1, 3, 4, 0⟩ ()).1.sample_time =
      1 * (9 / 10) + 2 * (1 / 10) :=
  (eval_bookkeeping 5 (fun _ : Unit => 0) 2 ⟨1, 3, 4, 0⟩ ()).2.1 (by norm_num)

/-- Counterexample to C8 as stated: the very first evaluation does not apply
the 0.9/0.1 EMA — it sets the estimate to the raw duration (2), while the
EMA formula on the zero estimate would give 1/5. -/
theorem eval_ema_first_call :
    (eval_step 5 (fun _ : Unit => 0) 2 ⟨0, 0, 0, 0⟩ ()).1.sample_time = 2 ∧
    (0 : ℚ) * (9 / 10) + 2 * (1 / 10) ≠ 2 := by
  constructor
  · rw [eval_step]
    norm_num
  · norm_num

/-- Claim C3: the number of elites kept is `int(elitism_fraction *
population_size)` and the number of novel prompts is
`int(population_size * novelty_fraction)` — the floors of the products; a
zero count makes the corresponding operation return an empty group with the
state (in particular the LLM query counter) untouched, and the elite
selection never queries the LLM at all. -/
theorem selection_counts_floor (cfg : SearchConf) (env : Env) (pop : Pop)
    (fuel : Nat) (st : St) (henv : EnvValid env) (he1 : cfg.elites ≤ 1)
    (hv : pop.values.length = cfg.population_size)
    (hep : pop.evals.length = cfg.population_size) :
    (∃ l st2, get_elites cfg env pop st = some (l, st2) ∧
      l.length = truncNat (cfg.elites * cfg.population_size) ∧ st2.q = st.q) ∧
    (∀ l st2, get_novel_prompts cfg env fuel st = some (l, st2) →
      l.length = truncNat ((cfg.population_size : ℚ) * cfg.novel_prompts)) ∧
    (truncNat (cfg.elites * cfg.population_size) = 0 →
      get_elites cfg env pop st = some ([], st)) ∧
    (truncNat ((cfg.population_size : ℚ) * cfg.novel_prompts) = 0 →
      get_novel_prompts cfg env fuel st = some ([], st)) :=
  ⟨get_elites_spec cfg env pop st henv he1 hv hep,
   get_novel_spec cfg env fuel st,
   get_elites_zero cfg env pop st,
   get_novel_zero cfg env fuel st⟩

/-- Witness for C3 at a concrete configuration with elitism 1/2 over a
population of 2. -/
theorem selection_counts_floor_witness :
    ∃ l st2, get_elites cfgC1W envW popW2 st0 = some (l, st2) ∧
      l.length = truncNat (cfgC1W.elites * cfgC1W.population_size) ∧ st2.q = st0.q :=
  (selection_counts_floor cfgC1W envW popW2 9 st0 envW_valid
    (by with_unfolding_all decide) (by decide) (by decide)).1

theorem full_LLM_step_length (cfg : SearchConf) (env : Env) (pop : Pop)
    (fuel : Nat) (st : St) :
    ∀ vs st2, full_LLM_step cfg env pop fuel st = some (vs, st2) →
      vs.length = cfg.population_size := by
  intro vs st2 h
  rw [full_LLM_step] at h
  split at h
  · simp at h
  · split at h
    · simp at h
    · split at h
      · simp at h
      · split at h
        · simp at h
        · rename_i ws hsv
          rw [set_values] at hsv
          split at hsv
          · rename_i hlen
            injection hsv with hsv
            injection h with h
            injection h with h1 h2
            rw [← h1, ← hsv]
            exact hlen
          · simp at hsv

theorem LLM_evolve_step_length (cfg : SearchConf) (ops : List OpConf) (env : Env)
    (pop : Pop) (fuel : Nat) (st : St) :
    ∀ vs st2, LLM_evolve_step cfg ops env pop fuel st = some (vs, st2) →
      vs.length = cfg.population_size := by
  intro vs st2 h
  rw [LLM_evolve_step] at h
  split at h
  · simp at h
  · split at h
    · simp at h
    · split at h
      · simp at h
      · split at h
        · simp at h
        · rename_i ws hsv
          rw [set_values] at hsv
          split at hsv
          · rename_i hlen
            injection hsv with hsv
            injection h with h
            injection h with h1 h2
            rw [← h1, ← hsv]
            exact hlen
          · simp at hsv

/-- Claim C1: for every configuration, every completed post-initialization
step, in either text mode, replaces the population with exactly
`population_size` members and assigns every member its fitness score. The
final write-back `set_values` targets the fixed-size batch created with
`population_size` slots and raises on any other number of values, so an
elites-plus-novel assembly that overshoots the quota aborts the step rather
than completing it oversized. -/
theorem step_population_size (mode : Mode) (cfg : SearchConf)
    (ops : List OpConf) (env : Env) (pop : Pop) (fuel : Nat) (st : St) :
    ∀ newPop st2, step mode cfg ops env pop fuel st = some (newPop, st2) →
      newPop.values.length = cfg.population_size ∧
      newPop.evals.length = cfg.population_size ∧
      newPop.evals = newPop.values.map env.fitness := by
  intro newPop st2 h
  cases mode with
  | fullLLM =>
    rw [step] at h
    cases hf : full_LLM_step cfg env pop fuel st with
    | none =>
      rw [hf] at h
      simp at h
    | some out =>
      obtain ⟨vs, st3⟩ := out
      rw [hf] at h
      have h' : (evaluate_population env vs, st3) = (newPop, st2) := by
        simpa [Option.map] using h
      injection h' with h1 h2
      subst h1
      have hlen := full_LLM_step_length cfg env pop fuel st vs st3 hf
      exact ⟨hlen, by simp [evaluate_population, hlen], rfl⟩
  | llmEvolve =>
    rw [step] at h
    cases hf : LLM_evolve_step cfg ops env pop fuel st with
    | none =>
      rw [hf] at h
      simp at h
    | some out =>
      obtain ⟨vs, st3⟩ := out
      rw [hf] at h
      have h' : (evaluate_population env vs, st3) = (newPop, st2) := by
        simpa [Option.map] using h
      injection h' with h1 h2
      subst h1
      have hlen := LLM_evolve_step_length cfg ops env pop fuel st vs st3 hf
      exact ⟨hlen, by simp [evaluate_population, hlen], rfl⟩

/-- Witness for C1 at a concrete completed full-regeneration step. -/
theorem step_population_size_witness :
    (Pop.mk ["b".data, "X".data] [0, 0]).values.length = cfgC1W.population_size ∧
    (Pop.mk ["b".data, "X".data] [0, 0]).evals.length = cfgC1W.population_size ∧
    (Pop.mk ["b".data, "X".data] [0, 0]).evals =
      (Pop.mk ["b".data, "X".data] [0, 0]).values.map envW.fitness :=
  step_population_size Mode.fullLLM cfgC1W [] envW popW2 9 st0
    (Pop.mk ["b".data, "X".data] [0, 0]) ⟨1, 0, 0⟩ (by with_unfolding_all decide)

end EvoMusic
